import Mathlib

/-!
Verification development for the HX711 multi-load-cell driver
(src/hx711/hx711.py).  The pure protocol logic of the two classes, HX711
(protocol controller) and LoadCell (sample accumulator), is embedded as
Lean functions.  The GPIO environment is passed in explicitly:

* `poll : Nat → List Nat` gives, for poll attempt `t` of `_prepare_to_read`,
  the values `GPIO.input(load_cell._dout_pin)` returned for the load cells,
  in list order (lines 103-107 of the source).
* `pulse_us : Nat → Nat` gives the elapsed wall time, in whole microseconds,
  of the k-th SCK pulse issued during one `_read` call (the source measures
  seconds with `perf_counter` and compares against `0.00006`, i.e. 60 us,
  lines 124-129).
* each `Cell` carries `pin : Nat → Nat`, the value `GPIO.input(self._dout_pin)`
  that its data pin shows at the k-th data pulse of the current cycle.

`GPIO.output` calls have no influence on any return value of the source
functions, so they do not appear in the protocol-level functions; the fact
that the source addresses the clock pin through the never-assigned
attribute `self._pd_sck` is modelled separately by the attribute-lookup
functions at the end of the definitions section.
-/

/-- Embeds `LoadCell.convert_to_signed_value` (lines 236-249).  The source
first runs `if not (0x7fffff < raw_value < 0x800000): return None` and only
otherwise falls through to the twos-complement branch, which is kept here
verbatim. -/
def convert_to_signed_value (raw_value : Int) : Option Int :=
  if ¬ (0x7fffff < raw_value ∧ raw_value < 0x800000) then
    none
  else
    if Int.land raw_value 0x800000 ≠ 0 then
      some (-((Int.xor raw_value 0xffffff) + 1))
    else
      some raw_value

/-- Embeds `HX711._set_channel_a_gain` (lines 71-76): raises TypeError unless
the gain is 128 or 64; the error text is the literal prefix of the message in
the source. -/
def set_channel_a_gain (channel_A_gain : Int) : Except String Int :=
  if ¬ (channel_A_gain = 128 ∨ channel_A_gain = 64) then
    Except.error "TypeError: channel_A_gain must be A or B"
  else
    Except.ok channel_A_gain

/-- Embeds `HX711._set_channel_select` (lines 78-83): raises TypeError unless
the channel is the string A or B. -/
def set_channel_select (channel_select : String) : Except String String :=
  if ¬ (channel_select = "A" ∨ channel_select = "B") then
    Except.error "TypeError: channel_select must be A or B"
  else
    Except.ok channel_select

/-- The gain/channel validation performed by `HX711.__init__` (lines 47-48):
`_set_channel_a_gain` runs first, then `_set_channel_select`; the first
raised error propagates and no controller is produced. -/
def validate_config (channel_A_gain : Int) (channel_select : String) :
    Except String (Int × String) :=
  match set_channel_a_gain channel_A_gain with
  | Except.error e => Except.error e
  | Except.ok g =>
    match set_channel_select channel_select with
    | Except.error e => Except.error e
    | Except.ok c => Except.ok (g, c)

/-- One polling pass of `_prepare_to_read` (lines 105-108): `ready = True`,
then for each load cell, `if GPIO.input(...) == 0: ready = False`. -/
def prepare_ready (inputs : List Nat) : Bool :=
  inputs.foldl (fun ready r => if r = 0 then false else ready) true

/-- The `for _ in range(20)` loop of `_prepare_to_read` (lines 102-114):
recompute `ready` each attempt, break as soon as it is true, otherwise sleep
and continue; after the loop the last `ready` value is returned. -/
def prepare_to_read_loop (poll : Nat → List Nat) : Nat → Nat → Bool → Bool
  | _, 0, ready => ready
  | t, fuel+1, _ =>
    if prepare_ready (poll t) = true then true
    else prepare_to_read_loop poll (t+1) fuel false

/-- Embeds `HX711._prepare_to_read` (lines 91-114), with the initial
`ready = True` and a budget of 20 poll attempts. -/
def prepare_to_read (poll : Nat → List Nat) : Bool :=
  prepare_to_read_loop poll 0 20 true

/-- Embeds `HX711._pulse_sck_high` (lines 116-134): the pulse duration is an
environment input in whole microseconds; the source returns False when the
measured duration is 60 us (0.00006 s) or longer, True otherwise. -/
def pulse_sck_high (dur_us : Nat) : Bool :=
  if 60 ≤ dur_us then false else true

/-- The pulse-count selection of `HX711._write_channel_gain` (lines 149-154):
default 2 pulses (channel B), 1 for channel A with gain 128, 3 for channel A
with gain 64. -/
def num_pulses (channel_select : String) (channel_A_gain : Int) : Nat :=
  if channel_select = "A" ∧ channel_A_gain = 128 then 1
  else if channel_select = "A" ∧ channel_A_gain = 64 then 3
  else 2

/-- The pulse loop of `HX711._write_channel_gain` (lines 156-160), returning
the boolean result together with the number of `_pulse_sck_high` calls made.
`k` is the index of the next pulse within the current `_read` call. -/
def write_channel_gain_loop (pulse_us : Nat → Nat) : Nat → Nat → Bool × Nat
  | _, 0 => (true, 0)
  | k, fuel+1 =>
    if pulse_sck_high (pulse_us k) = true then
      match write_channel_gain_loop pulse_us (k+1) fuel with
      | (ok, n) => (ok, n+1)
    else (false, 1)

/-- The observable state of one `LoadCell` (lines 206-216): the raw history
`raw_reads`, the signed history `reads`, and the transient accumulator
`_current_raw_read`.  The calibration fields `_offset`, `_scale_ratio` and
the field `_last_raw_read` are never touched by the read protocol and are
omitted. -/
structure LoadCellSt where
  raw_reads : List Nat
  reads : List (Option Int)
  current_raw_read : Nat

/-- A load cell together with its data-pin environment: `pin k` is the value
`GPIO.input(self._dout_pin)` reads at the k-th data pulse of the cycle. -/
structure Cell where
  st : LoadCellSt
  pin : Nat → Nat

/-- Embeds `LoadCell._init_raw_read` (lines 218-220). -/
def init_raw_read (st : LoadCellSt) : LoadCellSt :=
  { st with current_raw_read := 0 }

/-- Embeds `LoadCell._read` (lines 222-224): left shift by one bit, then
bitwise OR with the new bit. -/
def load_cell_read (st : LoadCellSt) (bit : Nat) : LoadCellSt :=
  { st with current_raw_read := (st.current_raw_read <<< 1) ||| bit }

/-- Embeds `LoadCell._finish_raw_read` (lines 226-234): append the raw
accumulator to `raw_reads` and its signed conversion to `reads`. -/
def finish_raw_read (st : LoadCellSt) : LoadCellSt :=
  { st with
    raw_reads := st.raw_reads ++ [st.current_raw_read],
    reads := st.reads ++ [convert_to_signed_value (st.current_raw_read : Int)] }

/-- Embeds `LoadCell._init_set_of_reads` (lines 251-253). -/
def init_set_of_reads (st : LoadCellSt) : LoadCellSt :=
  { st with raw_reads := [], reads := [] }

/-- One fan-out step of the data phase: the cell samples its own pin at
pulse `k` (line 191 calling lines 222-224). -/
def cell_sample (k : Nat) (c : Cell) : Cell :=
  { c with st := load_cell_read c.st (c.pin k) }

/-- `fuel` consecutive sampling steps of one cell starting at pulse `k`. -/
def cell_sample_run (k : Nat) : Nat → Cell → Cell
  | 0, c => c
  | fuel+1, c => cell_sample_run (k+1) fuel (cell_sample k c)

/-- The accumulator value produced by folding the shift-or update of
`LoadCell._read` over pulses `k, k+1, ..., k+fuel-1`. -/
def accum_bits (pin : Nat → Nat) (acc : Nat) (k : Nat) : Nat → Nat
  | 0 => acc
  | fuel+1 => accum_bits pin ((acc <<< 1) ||| pin k) (k+1) fuel

/-- The 24-iteration data loop of `HX711._read` (lines 186-191): pulse SCK,
abort with False if the pulse guard trips, otherwise let every cell sample
its pin.  Returns the boolean result, the cells, and the number of
`_pulse_sck_high` calls made. -/
def read_bits_loop (pulse_us : Nat → Nat) : Nat → Nat → List Cell → Bool × List Cell × Nat
  | _, 0, cells => (true, cells, 0)
  | k, fuel+1, cells =>
    if pulse_sck_high (pulse_us k) = true then
      match read_bits_loop pulse_us (k+1) fuel (cells.map (cell_sample k)) with
      | (ok, cells2, n) => (ok, cells2, n+1)
    else (false, cells, 1)

/-- Embeds `HX711._read` (lines 164-199): ready-wait, 24 data pulses with
lockstep sampling, finalization of every cell, then the trailing
channel/gain pulses.  Returns the boolean result, the cells after the call,
and the total number of `_pulse_sck_high` calls made. -/
def hx_read (channel_select : String) (channel_A_gain : Int)
    (pulse_us : Nat → Nat) (poll : Nat → List Nat) (cells : List Cell) :
    Bool × List Cell × Nat :=
  if prepare_to_read poll = true then
    match read_bits_loop pulse_us 0 24
        (cells.map (fun c => { c with st := init_raw_read c.st })) with
    | (true, cells2, n) =>
      match write_channel_gain_loop pulse_us n
          (num_pulses channel_select channel_A_gain) with
      | (ok2, n2) =>
        (ok2, (cells2.map (fun c => { c with st := finish_raw_read c.st })), n + n2)
    | (false, cells2, n) => (false, cells2, n)
  else (false, cells, 0)

/-- Observation helper: the raw histories of a cell list, in order. -/
def raw_histories (cells : List Cell) : List (List Nat) :=
  cells.map (fun c => c.st.raw_reads)

/-- Observation helper: the signed histories of a cell list, in order. -/
def signed_histories (cells : List Cell) : List (List (Option Int)) :=
  cells.map (fun c => c.st.reads)

/-- The instance attributes assigned by `HX711.__init__` (lines 34-49 via
`_set_dout_pins`, `_set_sck_pin`, `_set_channel_a_gain`,
`_set_channel_select`, `_init_load_cells`).  No statement of the class ever
assigns `_pd_sck`; the clock pin is stored as `_sck_pin` (line 62). -/
def hx711_init_attrs : List String :=
  ["_debug_mode", "_dout_pins", "_sck_pin", "_channel_A_gain",
   "_channel_select", "_load_cells"]

/-- Python attribute lookup `self.name`: an AttributeError is raised when the
name was never assigned on the instance (and is not a class attribute, which
holds for every name used here). -/
def attr_lookup (attrs : List String) (n : String) : Except String Unit :=
  if n ∈ attrs then Except.ok () else Except.error ("AttributeError: " ++ n)

/-- `HX711._prepare_to_read` begins with `GPIO.output(self._pd_sck, False)`
(line 99): the attribute access `self._pd_sck` is evaluated before any
polling, and an AttributeError propagates out of the method. -/
def prepare_to_read_checked (attrs : List String) (poll : Nat → List Nat) :
    Except String Bool :=
  match attr_lookup attrs "_pd_sck" with
  | Except.error e => Except.error e
  | Except.ok _ => Except.ok (prepare_to_read poll)

/-- `HX711._pulse_sck_high` drives the clock through `self._pd_sck`
(lines 125-126); the attribute access is evaluated before the timing check,
and an AttributeError propagates out of the method. -/
def pulse_sck_high_checked (attrs : List String) (dur_us : Nat) :
    Except String Bool :=
  match attr_lookup attrs "_pd_sck" with
  | Except.error e => Except.error e
  | Except.ok _ => Except.ok (pulse_sck_high dur_us)

/-- C1.  The claim says Decode implements the twos-complement interpretation,
with Decode(0) = 0, Decode(0x7FFFFF) = 8388607, Decode(0x800000) = -8388608
and Decode(0xFFFFFF) = -1.  Evaluating the source at exactly these inputs:
`convert_to_signed_value` returns the invalid sentinel None at every one of
them, because its guard `not (0x7fffff < raw_value < 0x800000)` holds for
every integer, so the twos-complement branch of lines 243-249 is dead code.
This records the code-bug evaluation. -/
theorem c1_decode_returns_none_at_claim_inputs :
    convert_to_signed_value 0 = none ∧
    convert_to_signed_value 0x7fffff = none ∧
    convert_to_signed_value 0x800000 = none ∧
    convert_to_signed_value 0xffffff = none := by
  refine ⟨?_, ?_, ?_, ?_⟩ <;> · unfold convert_to_signed_value; norm_num

/-- C2 counterexample.  The claim states that for every 24-bit raw input the
invalid branch is not taken and `convert_to_signed_value` returns a signed
integer, never None.  This is false: at raw = 1 the function returns None. -/
theorem c2_claim_counterexample :
    ¬ (∀ raw : Int, 0 ≤ raw → raw ≤ 0xffffff →
        convert_to_signed_value raw ≠ none) := by
  intro h
  apply h 1 (by norm_num) (by norm_num)
  unfold convert_to_signed_value
  norm_num

/-- C2 amended.  The invalid branch of `convert_to_signed_value` is always
taken, not unreachable: for every integer raw value (in particular every
24-bit one) the function returns the sentinel None, because the test
`not (0x7fffff < raw_value < 0x800000)` is true for every integer; no
integer lies strictly between 0x7FFFFF and 0x800000. -/
theorem c2_decode_always_returns_none (raw : Int) :
    convert_to_signed_value raw = none := by
  unfold convert_to_signed_value
  have h : ¬ ((0x7fffff : Int) < raw ∧ raw < 0x800000) := by omega
  rw [if_pos h]

/-- C4.  The claim (and the docstring of `_prepare_to_read`) says the poll
returns true as soon as every data pin reads LOW (0), and false after the
20-poll budget is exhausted with a pin still HIGH.  The source inverts the
pin test (line 107 marks `ready = False` when a pin reads 0): with a single
load cell whose pin reads LOW at every poll the function returns false, and
with the pin reading HIGH at every poll it returns true.  This records the
code-bug evaluation at both failing inputs. -/
theorem c4_prepare_to_read_polarity_inverted :
    prepare_to_read (fun _ => [0]) = false ∧
    prepare_to_read (fun _ => [1]) = true := by
  exact ⟨rfl, rfl⟩

/-- C3.  The claim says `_prepare_to_read`, `_pulse_sck_high`,
`_write_channel_gain` and `_read` never raise for ready-wait or timing
conditions and report failure only through boolean returns.  Evaluating the
source: `__init__` stores the clock pin as `_sck_pin`, but both
`_prepare_to_read` and `_pulse_sck_high` address the pin as `self._pd_sck`,
an attribute that is never assigned, so every call (and hence every `_read`
and `_write_channel_gain` call) raises AttributeError before any boolean can
be returned. -/
theorem c3_prepare_and_pulse_raise_attribute_error
    (poll : Nat → List Nat) (dur_us : Nat) :
    prepare_to_read_checked hx711_init_attrs poll =
      Except.error "AttributeError: _pd_sck" ∧
    pulse_sck_high_checked hx711_init_attrs dur_us =
      Except.error "AttributeError: _pd_sck" := by
  exact ⟨rfl, rfl⟩

/-- C9 counterexample.  The claim says construction rejects invalid
gain/channel combinations such as channel B with gain 128; in the source the
two checks are independent and the pair (gain 128, channel B) passes
validation. -/
theorem c9_claim_counterexample :
    validate_config 128 "B" = Except.ok (128, "B") := by
  rfl

/-- C9 amended.  Construction validates gain and channel independently, not
jointly: validation succeeds exactly when gain is 128 or 64 and channel is
the string A or B, so the combination channel B with channel_A_gain 128 is
accepted (the gain field only applies to channel A). -/
theorem c9_validation_is_independent (g : Int) (c : String) :
    (validate_config g c).isOk = true ↔
      ((g = 128 ∨ g = 64) ∧ (c = "A" ∨ c = "B")) := by
  unfold validate_config set_channel_a_gain set_channel_select
  by_cases hg : g = 128 ∨ g = 64 <;> by_cases hc : c = "A" ∨ c = "B" <;>
    simp [hg, hc, Except.isOk, Except.toBool]

/-- C9 witness: the amended validation equivalence applied at the concrete
valid configuration gain 64, channel A. -/
theorem c9_validation_is_independent_witness :
    (validate_config 64 "A").isOk = true := by
  exact (c9_validation_is_independent 64 "A").mpr (by norm_num)

/-- Helper: bitwise OR of a doubled number with one. -/
theorem two_mul_lor_one (a : Nat) : 2 * a ||| 1 = 2 * a + 1 := by
  have h1 : (1 : Nat) = Nat.bit true 0 := by simp [Nat.bit_val]
  have h2 : 2 * a = Nat.bit false a := by simp [Nat.bit_val]
  rw [h2, h1, Nat.lor_bit]
  simp [Nat.bit_val]

/-- Helper: the shift-or update of `LoadCell._read` is arithmetic doubling
plus the incoming bit, provided the bit is 0 or 1. -/
theorem shiftLeft_one_lor (a b : Nat) (hb : b ≤ 1) :
    (a <<< 1) ||| b = 2 * a + b := by
  have ha : a <<< 1 = 2 * a := by rw [Nat.shiftLeft_eq]; ring
  interval_cases b
  · simp [ha]
  · rw [ha, two_mul_lor_one]

/-- Helper: sampling runs do not change the pin stream of a cell. -/
theorem cell_sample_run_pin (fuel : Nat) : ∀ (k : Nat) (c : Cell),
    (cell_sample_run k fuel c).pin = c.pin := by
  induction fuel with
  | zero => intro k c; rfl
  | succ f ih => intro k c; exact ih (k+1) (cell_sample k c)

/-- Helper: sampling runs do not change the raw history of a cell. -/
theorem cell_sample_run_raw (fuel : Nat) : ∀ (k : Nat) (c : Cell),
    (cell_sample_run k fuel c).st.raw_reads = c.st.raw_reads := by
  induction fuel with
  | zero => intro k c; rfl
  | succ f ih => intro k c; exact ih (k+1) (cell_sample k c)

/-- Helper: sampling runs do not change the signed history of a cell. -/
theorem cell_sample_run_reads (fuel : Nat) : ∀ (k : Nat) (c : Cell),
    (cell_sample_run k fuel c).st.reads = c.st.reads := by
  induction fuel with
  | zero => intro k c; rfl
  | succ f ih => intro k c; exact ih (k+1) (cell_sample k c)

/-- Helper: a sampling run folds the shift-or update over the pin stream. -/
theorem cell_sample_run_current (fuel : Nat) : ∀ (k : Nat) (c : Cell),
    (cell_sample_run k fuel c).st.current_raw_read =
      accum_bits c.pin c.st.current_raw_read k fuel := by
  induction fuel with
  | zero => intro k c; rfl
  | succ f ih => intro k c; exact ih (k+1) (cell_sample k c)

/-- Helper: when the data loop succeeds, every cell has run all `fuel`
sampling steps and exactly `fuel` pulses were issued. -/
theorem read_bits_loop_ok (pulse_us : Nat → Nat) (fuel : Nat) :
    ∀ (k : Nat) (cells : List Cell),
      (read_bits_loop pulse_us k fuel cells).1 = true →
      (read_bits_loop pulse_us k fuel cells).2.1 =
        cells.map (cell_sample_run k fuel) ∧
      (read_bits_loop pulse_us k fuel cells).2.2 = fuel := by
  induction fuel with
  | zero =>
    intro k cells _
    exact ⟨(List.map_id'' (fun c => rfl) cells).symm, rfl⟩
  | succ f ih =>
    intro k cells h
    by_cases hp : pulse_sck_high (pulse_us k) = true
    · rcases hrec : read_bits_loop pulse_us (k+1) f (cells.map (cell_sample k))
        with ⟨ok, cells2, n⟩
      have hre := ih (k+1) (cells.map (cell_sample k))
      rw [hrec] at hre
      simp only [read_bits_loop, if_pos hp, hrec] at h ⊢
      obtain ⟨h1, h2⟩ := hre h
      constructor
      · exact h1.trans (by
          rw [List.map_map]
          exact List.map_congr_left (fun a _ => rfl))
      · exact congrArg (· + 1) h2
    · simp only [read_bits_loop, if_neg hp] at h
      cases h

/-- Helper: if every pulse of the data loop stays under the guard, the loop
succeeds. -/
theorem read_bits_loop_all_ok (pulse_us : Nat → Nat) (fuel : Nat) :
    ∀ (k : Nat) (cells : List Cell),
      (∀ j, j < fuel → pulse_sck_high (pulse_us (k + j)) = true) →
      (read_bits_loop pulse_us k fuel cells).1 = true := by
  induction fuel with
  | zero => intro k cells _; rfl
  | succ f ih =>
    intro k cells hall
    have hp : pulse_sck_high (pulse_us k) = true := by
      have := hall 0 (Nat.succ_pos f); rwa [Nat.add_zero] at this
    rcases hrec : read_bits_loop pulse_us (k+1) f (cells.map (cell_sample k))
      with ⟨ok, cells2, n⟩
    have hok : ok = true := by
      have := ih (k+1) (cells.map (cell_sample k)) (fun j hj => by
        have := hall (j+1) (Nat.succ_lt_succ hj)
        rwa [show k + (j+1) = k + 1 + j by omega] at this)
      rwa [hrec] at this
    simp only [read_bits_loop, if_pos hp, hrec]
    exact hok

/-- Helper: whatever the outcome, the cells returned by the data loop are the
input cells after some number of full lockstep sampling rounds. -/
theorem read_bits_loop_shape (pulse_us : Nat → Nat) (fuel : Nat) :
    ∀ (k : Nat) (cells : List Cell),
      ∃ j, j ≤ fuel ∧ (read_bits_loop pulse_us k fuel cells).2.1 =
        cells.map (cell_sample_run k j) := by
  induction fuel with
  | zero =>
    intro k cells
    exact ⟨0, Nat.le_refl 0, (List.map_id'' (fun c => rfl) cells).symm⟩
  | succ f ih =>
    intro k cells
    by_cases hp : pulse_sck_high (pulse_us k) = true
    · rcases hrec : read_bits_loop pulse_us (k+1) f (cells.map (cell_sample k))
        with ⟨ok, cells2, n⟩
      obtain ⟨j, hj, hcells⟩ := ih (k+1) (cells.map (cell_sample k))
      rw [hrec] at hcells
      refine ⟨j+1, Nat.succ_le_succ hj, ?_⟩
      simp only [read_bits_loop, if_pos hp, hrec]
      exact hcells.trans (by
        rw [List.map_map]
        exact List.map_congr_left (fun a _ => rfl))
    · refine ⟨0, Nat.zero_le _, ?_⟩
      simp only [read_bits_loop, if_neg hp]
      exact (List.map_id'' (fun c => rfl) cells).symm

/-- Helper: if some pulse within the budget trips the guard, the data loop
fails. -/
theorem read_bits_loop_fail (pulse_us : Nat → Nat) (fuel : Nat) :
    ∀ (k : Nat) (cells : List Cell),
      (∃ j, j < fuel ∧ pulse_sck_high (pulse_us (k + j)) = false) →
      (read_bits_loop pulse_us k fuel cells).1 = false := by
  induction fuel with
  | zero =>
    rintro k cells ⟨j, hj, _⟩
    omega
  | succ f ih =>
    rintro k cells ⟨j, hj, hfail⟩
    by_cases hp : pulse_sck_high (pulse_us k) = true
    · rcases hrec : read_bits_loop pulse_us (k+1) f (cells.map (cell_sample k))
        with ⟨ok, cells2, n⟩
      have hok : ok = false := by
        have hj' : ∃ j', j' < f ∧ pulse_sck_high (pulse_us (k + 1 + j')) = false := by
          cases j with
          | zero =>
            rw [Nat.add_zero] at hfail
            rw [hfail] at hp
            cases hp
          | succ j' =>
            exact ⟨j', by omega, by rwa [show k + 1 + j' = k + (j' + 1) by omega]⟩
        have := ih (k+1) (cells.map (cell_sample k)) hj'
        rwa [hrec] at this
      simp only [read_bits_loop, if_pos hp, hrec]
      exact hok
    · simp only [read_bits_loop, if_neg hp]

/-- Helper: when the trailing channel/gain loop succeeds it issued exactly
`fuel` pulses. -/
theorem write_channel_gain_loop_count (pulse_us : Nat → Nat) (fuel : Nat) :
    ∀ k : Nat, (write_channel_gain_loop pulse_us k fuel).1 = true →
      (write_channel_gain_loop pulse_us k fuel).2 = fuel := by
  induction fuel with
  | zero => intro k _; rfl
  | succ f ih =>
    intro k h
    by_cases hp : pulse_sck_high (pulse_us k) = true
    · rcases hrec : write_channel_gain_loop pulse_us (k+1) f with ⟨ok, n⟩
      have hcount := ih (k+1)
      rw [hrec] at hcount
      simp only [write_channel_gain_loop, if_pos hp, hrec] at h ⊢
      exact congrArg (· + 1) (hcount h)
    · simp only [write_channel_gain_loop, if_neg hp] at h
      cases h


/-- Helper: with bits that are each 0 or 1, the shift-or fold computes the
MSB-first base-two composition of the sampled bits on top of the prior
accumulator value. -/
theorem accum_bits_eq_sum (pin : Nat → Nat) (fuel : Nat) : ∀ (acc k : Nat),
    (∀ j, j < fuel → pin (k + j) ≤ 1) →
    accum_bits pin acc k fuel =
      acc * 2 ^ fuel + ∑ j in Finset.range fuel, pin (k + j) * 2 ^ (fuel - 1 - j) := by
  induction fuel with
  | zero => intro acc k _; simp [accum_bits]
  | succ f ih =>
    intro acc k hb
    have hbk : pin k ≤ 1 := by
      have := hb 0 (Nat.succ_pos f); rwa [Nat.add_zero] at this
    have hstep : accum_bits pin acc k (f+1) =
        accum_bits pin (2 * acc + pin k) (k+1) f := by
      show accum_bits pin ((acc <<< 1) ||| pin k) (k+1) f = _
      rw [shiftLeft_one_lor acc (pin k) hbk]
    rw [hstep, ih (2 * acc + pin k) (k+1) (fun j hj => by
      have := hb (j+1) (Nat.succ_lt_succ hj)
      rwa [show k + (j + 1) = k + 1 + j by omega] at this)]
    rw [Finset.sum_range_succ' (fun j => pin (k + j) * 2 ^ (f + 1 - 1 - j)) f]
    rw [Finset.sum_congr rfl (fun j hj => by
      have h1 : k + (j + 1) = k + 1 + j := by omega
      have h2 : f + 1 - 1 - (j + 1) = f - 1 - j := by omega
      rw [h1, h2] :
        ∀ j ∈ Finset.range f,
          pin (k + (j + 1)) * 2 ^ (f + 1 - 1 - (j + 1)) =
          pin (k + 1 + j) * 2 ^ (f - 1 - j))]
    have he : pin (k + 0) * 2 ^ (f + 1 - 1 - 0) = pin k * 2 ^ f := by
      have h1 : k + 0 = k := by omega
      have h2 : f + 1 - 1 - 0 = f := by omega
      rw [h1, h2]
    rw [he]
    have hp : (2:Nat) ^ (f + 1) = 2 * 2 ^ f := by ring
    rw [hp]
    ring

/-- Helper: with bits that are each 0 or 1, the shift-or fold started from an
accumulator below 2 to the m stays below 2 to the (m + fuel). -/
theorem accum_bits_lt (pin : Nat → Nat) (fuel : Nat) : ∀ (acc k m : Nat),
    acc < 2 ^ m → (∀ j, j < fuel → pin (k + j) ≤ 1) →
    accum_bits pin acc k fuel < 2 ^ (m + fuel) := by
  induction fuel with
  | zero => intro acc k m hacc _; simpa [accum_bits] using hacc
  | succ f ih =>
    intro acc k m hacc hb
    have hbk : pin k ≤ 1 := by
      have := hb 0 (Nat.succ_pos f); rwa [Nat.add_zero] at this
    have hstep : (acc <<< 1) ||| pin k < 2 ^ (m + 1) := by
      rw [shiftLeft_one_lor acc (pin k) hbk]
      have h2 : (2:Nat) ^ (m + 1) = 2 * 2 ^ m := by ring
      omega
    have hrec := ih ((acc <<< 1) ||| pin k) (k+1) (m+1) hstep (fun j hj => by
      have := hb (j+1) (Nat.succ_lt_succ hj)
      rwa [show k + (j + 1) = k + 1 + j by omega] at this)
    have harr : m + 1 + f = m + (f + 1) := by omega
    rw [harr] at hrec
    exact hrec

/-- Helper: finalizing a cell that was reset and then sampled for 24 pulses
appends exactly the composition of its own 24 bits to its raw history. -/
theorem finish_run_init_raw (c : Cell) :
    (finish_raw_read (cell_sample_run 0 24 { c with st := init_raw_read c.st }).st).raw_reads
      = c.st.raw_reads ++ [accum_bits c.pin 0 0 24] := by
  show (cell_sample_run 0 24 { c with st := init_raw_read c.st }).st.raw_reads
      ++ [(cell_sample_run 0 24 { c with st := init_raw_read c.st }).st.current_raw_read]
    = c.st.raw_reads ++ [accum_bits c.pin 0 0 24]
  rw [cell_sample_run_raw, cell_sample_run_current]
  rfl

/-- Helper: finalizing a cell that was reset and then sampled for 24 pulses
appends exactly the signed conversion of its own 24-bit composition to its
signed history. -/
theorem finish_run_init_reads (c : Cell) :
    (finish_raw_read (cell_sample_run 0 24 { c with st := init_raw_read c.st }).st).reads
      = c.st.reads ++ [convert_to_signed_value ((accum_bits c.pin 0 0 24 : Nat) : Int)] := by
  show (cell_sample_run 0 24 { c with st := init_raw_read c.st }).st.reads
      ++ [convert_to_signed_value
        ((cell_sample_run 0 24 { c with st := init_raw_read c.st }).st.current_raw_read : Int)]
    = _
  rw [cell_sample_run_reads, cell_sample_run_current]
  rfl

/-- Helper: on a successful `_read`, the returned cells are the input cells
after reset, 24 lockstep sampling rounds and finalization, and exactly
24 plus the configured number of trailing pulses were issued. -/
theorem hx_read_ok_spec (ch : String) (g : Int) (pulse_us : Nat → Nat)
    (poll : Nat → List Nat) (cells : List Cell)
    (h : (hx_read ch g pulse_us poll cells).1 = true) :
    (hx_read ch g pulse_us poll cells).2.1 =
      ((cells.map (fun c => { c with st := init_raw_read c.st })).map
        (cell_sample_run 0 24)).map (fun c => { c with st := finish_raw_read c.st }) ∧
    (hx_read ch g pulse_us poll cells).2.2 = 24 + num_pulses ch g := by
  by_cases hprep : prepare_to_read poll = true
  · rcases hrec : read_bits_loop pulse_us 0 24
        (cells.map (fun c => { c with st := init_raw_read c.st })) with ⟨ok, cells2, n⟩
    cases ok with
    | false =>
      exfalso
      unfold hx_read at h
      rw [if_pos hprep, hrec] at h
      simp at h
    | true =>
      have hro := read_bits_loop_ok pulse_us 24 0
        (cells.map (fun c => { c with st := init_raw_read c.st })) (by rw [hrec])
      rw [hrec] at hro
      have hc2 : cells2 = List.map (cell_sample_run 0 24)
          (List.map (fun c => { c with st := init_raw_read c.st }) cells) := hro.1
      have hn' : n = 24 := hro.2
      subst hn'
      rcases hw : write_channel_gain_loop pulse_us 24 (num_pulses ch g) with ⟨ok2, n2⟩
      have hok2 : ok2 = true := by
        unfold hx_read at h
        rw [if_pos hprep, hrec] at h
        simp only [] at h
        rw [hw] at h
        exact h
      have hwc := write_channel_gain_loop_count pulse_us (num_pulses ch g) 24
      rw [hw] at hwc
      have hn2 : n2 = num_pulses ch g := by
        apply hwc
        rw [hok2]
      unfold hx_read
      rw [if_pos hprep, hrec]
      simp only []
      rw [hw]
      constructor
      · show cells2.map (fun c => { c with st := finish_raw_read c.st }) = _
        rw [hc2]
      · show 24 + n2 = 24 + num_pulses ch g
        rw [hn2]
  · exfalso
    unfold hx_read at h
    rw [if_neg hprep] at h
    simp at h

/-- C5.  On every successful `_read`, the total number of SCK pulses issued
is exactly 24 data pulses plus the configured trailing count: 1 trailing
pulse for channel A gain 128 (25 total), 3 for channel A gain 64 (27 total),
and 2 for channel B regardless of the stored channel-A gain (26 total). -/
theorem c5_read_total_pulse_count (ch : String) (g : Int) (pulse_us : Nat → Nat)
    (poll : Nat → List Nat) (cells : List Cell)
    (h : (hx_read ch g pulse_us poll cells).1 = true) :
    (hx_read ch g pulse_us poll cells).2.2 = 24 + num_pulses ch g ∧
    num_pulses "A" 128 = 1 ∧ num_pulses "A" 64 = 3 ∧
    ∀ g' : Int, num_pulses "B" g' = 2 := by
  refine ⟨(hx_read_ok_spec ch g pulse_us poll cells h).2, rfl, rfl, ?_⟩
  intro g'
  unfold num_pulses
  rw [if_neg (fun hh => absurd hh.1 (by decide)),
      if_neg (fun hh => absurd hh.1 (by decide))]

/-- C5 witness: a successful read with channel A and gain 128 issues exactly
25 pulses. -/
theorem c5_read_total_pulse_count_witness :
    (hx_read "A" 128 (fun _ => 0) (fun _ => [1])
      [⟨⟨[], [], 0⟩, fun _ => 1⟩]).2.2 = 25 := by
  have h := c5_read_total_pulse_count "A" 128 (fun _ => 0) (fun _ => [1])
    [⟨⟨[], [], 0⟩, fun _ => 1⟩] (by rfl)
  exact h.1.trans (by rfl)

/-- C6.  If `_read` fails before finalization, because `_prepare_to_read`
returned false or some of the 24 data pulses tripped the 60 microsecond
guard, then `_read` returns false and no entry is appended to any raw or
signed history; the partial bit accumulation is never finalized. -/
theorem c6_failed_read_preserves_histories (ch : String) (g : Int)
    (pulse_us : Nat → Nat) (poll : Nat → List Nat) (cells : List Cell)
    (h : prepare_to_read poll = false ∨
      ∃ k, k < 24 ∧ pulse_sck_high (pulse_us k) = false) :
    (hx_read ch g pulse_us poll cells).1 = false ∧
    raw_histories (hx_read ch g pulse_us poll cells).2.1 = raw_histories cells ∧
    signed_histories (hx_read ch g pulse_us poll cells).2.1 =
      signed_histories cells := by
  by_cases hprep : prepare_to_read poll = true
  · have hfail : ∃ j, j < 24 ∧ pulse_sck_high (pulse_us (0 + j)) = false := by
      rcases h with h | ⟨k, hk, hkf⟩
      · rw [hprep] at h; cases h
      · exact ⟨k, hk, by rwa [Nat.zero_add]⟩
    rcases hrec : read_bits_loop pulse_us 0 24
        (cells.map (fun c => { c with st := init_raw_read c.st })) with ⟨ok, cells2, n⟩
    have hok : ok = false := by
      have := read_bits_loop_fail pulse_us 24 0
        (cells.map (fun c => { c with st := init_raw_read c.st })) hfail
      rwa [hrec] at this
    subst hok
    obtain ⟨j, hj, hshape⟩ := read_bits_loop_shape pulse_us 24 0
      (cells.map (fun c => { c with st := init_raw_read c.st }))
    rw [hrec] at hshape
    have hshape2 : cells2 =
        (cells.map (fun c => { c with st := init_raw_read c.st })).map
          (cell_sample_run 0 j) := hshape
    unfold hx_read
    rw [if_pos hprep, hrec]
    simp only []
    refine ⟨trivial, ?_, ?_⟩
    · rw [hshape2]
      unfold raw_histories
      rw [List.map_map, List.map_map]
      exact List.map_congr_left (fun c _ => cell_sample_run_raw j 0 _)
    · rw [hshape2]
      unfold signed_histories
      rw [List.map_map, List.map_map]
      exact List.map_congr_left (fun c _ => cell_sample_run_reads j 0 _)
  · unfold hx_read
    rw [if_neg hprep]
    exact ⟨rfl, rfl, rfl⟩

/-- C6 witness: with the first data pulse lasting 60 microseconds the read
fails. -/
theorem c6_failed_read_preserves_histories_witness :
    (hx_read "A" 128 (fun _ => 60) (fun _ => [1])
      [⟨⟨[], [], 0⟩, fun _ => 1⟩]).1 = false :=
  (c6_failed_read_preserves_histories "A" 128 (fun _ => 60) (fun _ => [1])
    [⟨⟨[], [], 0⟩, fun _ => 1⟩] (Or.inr ⟨0, by omega, rfl⟩)).1

/-- C7.  If the ready wait and all 24 data pulses succeed but the trailing
channel/gain pulse loop fails the 60 microsecond guard, `_read` returns
false while the raw and signed history entries appended for this cycle are
retained. -/
theorem c7_gain_failure_retains_cycle_histories (ch : String) (g : Int)
    (pulse_us : Nat → Nat) (poll : Nat → List Nat) (cells : List Cell)
    (hprep : prepare_to_read poll = true)
    (hpulses : ∀ k, k < 24 → pulse_sck_high (pulse_us k) = true)
    (hw : (write_channel_gain_loop pulse_us 24 (num_pulses ch g)).1 = false) :
    (hx_read ch g pulse_us poll cells).1 = false ∧
    raw_histories (hx_read ch g pulse_us poll cells).2.1 =
      cells.map (fun c => c.st.raw_reads ++ [accum_bits c.pin 0 0 24]) ∧
    signed_histories (hx_read ch g pulse_us poll cells).2.1 =
      cells.map (fun c => c.st.reads ++
        [convert_to_signed_value ((accum_bits c.pin 0 0 24 : Nat) : Int)]) := by
  rcases hrec : read_bits_loop pulse_us 0 24
      (cells.map (fun c => { c with st := init_raw_read c.st })) with ⟨ok, cells2, n⟩
  have hok : ok = true := by
    have := read_bits_loop_all_ok pulse_us 24 0
      (cells.map (fun c => { c with st := init_raw_read c.st })) (fun j hj => by
        have := hpulses j hj
        rwa [Nat.zero_add])
    rwa [hrec] at this
  subst hok
  have hro := read_bits_loop_ok pulse_us 24 0
    (cells.map (fun c => { c with st := init_raw_read c.st })) (by rw [hrec])
  rw [hrec] at hro
  have hc2 : cells2 =
      (cells.map (fun c => { c with st := init_raw_read c.st })).map
        (cell_sample_run 0 24) := hro.1
  have hn : n = 24 := hro.2
  subst hn
  rcases hw2 : write_channel_gain_loop pulse_us 24 (num_pulses ch g) with ⟨ok2, n2⟩
  have hok2 : ok2 = false := by rw [hw2] at hw; exact hw
  unfold hx_read
  rw [if_pos hprep, hrec]
  simp only []
  rw [hw2]
  refine ⟨hok2, ?_, ?_⟩
  · rw [hc2]
    unfold raw_histories
    rw [List.map_map, List.map_map, List.map_map]
    exact List.map_congr_left (fun c _ => finish_run_init_raw c)
  · rw [hc2]
    unfold signed_histories
    rw [List.map_map, List.map_map, List.map_map]
    exact List.map_congr_left (fun c _ => finish_run_init_reads c)

/-- C7 witness: data pulses under the guard, trailing pulse at 60
microseconds, read reports failure. -/
theorem c7_gain_failure_retains_cycle_histories_witness :
    (hx_read "A" 128 (fun k => if k < 24 then 0 else 60) (fun _ => [1])
      [⟨⟨[], [], 0⟩, fun _ => 1⟩]).1 = false :=
  (c7_gain_failure_retains_cycle_histories "A" 128
    (fun k => if k < 24 then 0 else 60) (fun _ => [1])
    [⟨⟨[], [], 0⟩, fun _ => 1⟩] rfl (by decide) rfl).1

/-- C8.  For any number of load cells sharing the clock: a successful
`_read` grows every raw and every signed history by exactly one entry, and
the entry of each cell is derived only from the composition of that cell's
own 24 sampled bits; moreover every `_read` outcome preserves the invariant
that each cell's raw and signed histories have equal length, the decode
result (here always the sentinel) being appended rather than omitted. -/
theorem c8_lockstep_growth_and_alignment (ch : String) (g : Int)
    (pulse_us : Nat → Nat) (poll : Nat → List Nat) (cells : List Cell) :
    ((hx_read ch g pulse_us poll cells).1 = true →
      raw_histories (hx_read ch g pulse_us poll cells).2.1 =
        cells.map (fun c => c.st.raw_reads ++ [accum_bits c.pin 0 0 24]) ∧
      signed_histories (hx_read ch g pulse_us poll cells).2.1 =
        cells.map (fun c => c.st.reads ++
          [convert_to_signed_value ((accum_bits c.pin 0 0 24 : Nat) : Int)])) ∧
    ((∀ c ∈ cells, c.st.raw_reads.length = c.st.reads.length) →
      ∀ c2 ∈ (hx_read ch g pulse_us poll cells).2.1,
        c2.st.raw_reads.length = c2.st.reads.length) := by
  constructor
  · intro h
    obtain ⟨hcells, -⟩ := hx_read_ok_spec ch g pulse_us poll cells h
    rw [hcells]
    constructor
    · unfold raw_histories
      rw [List.map_map, List.map_map, List.map_map]
      exact List.map_congr_left (fun c _ => finish_run_init_raw c)
    · unfold signed_histories
      rw [List.map_map, List.map_map, List.map_map]
      exact List.map_congr_left (fun c _ => finish_run_init_reads c)
  · intro hinv c2 hc2
    by_cases hprep : prepare_to_read poll = true
    · rcases hrec : read_bits_loop pulse_us 0 24
          (cells.map (fun c => { c with st := init_raw_read c.st })) with ⟨ok, cellsm, n⟩
      obtain ⟨j, hj, hshape⟩ := read_bits_loop_shape pulse_us 24 0
        (cells.map (fun c => { c with st := init_raw_read c.st }))
      rw [hrec] at hshape
      have hshape2 : cellsm =
          (cells.map (fun c => { c with st := init_raw_read c.st })).map
            (cell_sample_run 0 j) := hshape
      unfold hx_read at hc2
      rw [if_pos hprep, hrec] at hc2
      cases ok with
      | false =>
        simp only [] at hc2
        rw [hshape2] at hc2
        obtain ⟨c1, hc1, rfl⟩ := List.mem_map.mp hc2
        obtain ⟨c, hc, rfl⟩ := List.mem_map.mp hc1
        rw [cell_sample_run_raw j 0 _, cell_sample_run_reads j 0 _]
        exact hinv c hc
      | true =>
        simp only [] at hc2
        obtain ⟨c1, hc1, rfl⟩ := List.mem_map.mp hc2
        rw [hshape2] at hc1
        obtain ⟨cm, hcm, rfl⟩ := List.mem_map.mp hc1
        obtain ⟨c, hc, rfl⟩ := List.mem_map.mp hcm
        show ((cell_sample_run 0 j { c with st := init_raw_read c.st }).st.raw_reads
            ++ [(cell_sample_run 0 j
              { c with st := init_raw_read c.st }).st.current_raw_read]).length
          = ((cell_sample_run 0 j { c with st := init_raw_read c.st }).st.reads
            ++ [convert_to_signed_value ((cell_sample_run 0 j
              { c with st := init_raw_read c.st }).st.current_raw_read : Int)]).length
        rw [cell_sample_run_raw j 0 _, cell_sample_run_reads j 0 _,
          List.length_append, List.length_append]
        exact congrArg (· + 1) (hinv c hc)
    · unfold hx_read at hc2
      rw [if_neg hprep] at hc2
      exact hinv c2 hc2

/-- C8 witness: one cell, pin constantly HIGH, successful read; the raw
history after the read is the single entry 16777215 composed from the 24
sampled bits of that cell. -/
theorem c8_lockstep_growth_and_alignment_witness :
    raw_histories (hx_read "A" 128 (fun _ => 0) (fun _ => [1])
      [⟨⟨[], [], 0⟩, fun _ => 1⟩]).2.1 = [[16777215]] := by
  have h := (c8_lockstep_growth_and_alignment "A" 128 (fun _ => 0) (fun _ => [1])
    [⟨⟨[], [], 0⟩, fun _ => 1⟩]).1 (by rfl)
  exact h.1.trans (by rfl)

/-- C10.  Starting from a reset accumulator, 24 sampling steps whose pin
reads are each 0 or 1 leave the accumulator equal to the MSB-first
composition of the bits, the sum over i below 24 of bit i times 2 to the
(23 - i); in particular the value is below 2 to the 24, and finalizing
appends exactly this value to the raw history. -/
theorem c10_msb_first_composition (pin : Nat → Nat) (st : LoadCellSt)
    (hb : ∀ k, k < 24 → pin k ≤ 1) :
    (cell_sample_run 0 24 ⟨init_raw_read st, pin⟩).st.current_raw_read
      = ∑ i in Finset.range 24, pin i * 2 ^ (23 - i) ∧
    (cell_sample_run 0 24 ⟨init_raw_read st, pin⟩).st.current_raw_read < 2 ^ 24 ∧
    (finish_raw_read (cell_sample_run 0 24 ⟨init_raw_read st, pin⟩).st).raw_reads
      = st.raw_reads ++
        [(cell_sample_run 0 24 ⟨init_raw_read st, pin⟩).st.current_raw_read] := by
  have hb0 : ∀ j, j < 24 → pin (0 + j) ≤ 1 := fun j hj => by
    rw [Nat.zero_add]; exact hb j hj
  have hcur : (cell_sample_run 0 24 ⟨init_raw_read st, pin⟩).st.current_raw_read
      = accum_bits pin 0 0 24 := cell_sample_run_current 24 0 _
  refine ⟨?_, ?_, ?_⟩
  · rw [hcur, accum_bits_eq_sum pin 24 0 0 hb0]
    simp only [Nat.zero_mul, Nat.zero_add]
  · rw [hcur]
    have hlt := accum_bits_lt pin 24 0 0 0 (by norm_num) hb0
    simpa using hlt
  · show (cell_sample_run 0 24 ⟨init_raw_read st, pin⟩).st.raw_reads
        ++ [(cell_sample_run 0 24 ⟨init_raw_read st, pin⟩).st.current_raw_read]
      = st.raw_reads
        ++ [(cell_sample_run 0 24 ⟨init_raw_read st, pin⟩).st.current_raw_read]
    rw [cell_sample_run_raw 24 0 _]
    rfl

/-- C10 witness: with all 24 bits equal to 1 the accumulated value stays
below 2 to the 24. -/
theorem c10_msb_first_composition_witness :
    (cell_sample_run 0 24
      ⟨init_raw_read ⟨[], [], 0⟩, fun _ => 1⟩).st.current_raw_read < 2 ^ 24 :=
  (c10_msb_first_composition (fun _ => 1) ⟨[], [], 0⟩ (fun _ _ => Nat.le_refl 1)).2.1
